import Mathlib

/-!
Verification of the Harel bot (`bot_all_in_one.py`): a shallow embedding of the
OTP synchronization protocol (`get_last_sms_datetime`, `wait_for_otp_from_pulseem`),
the Pulseem request payload construction (`get_incoming_sms_report`), the
latest-row selection of `run_payments_assembly_flow`, and the frame search of
`find_first_locator_in_any_frame` / `click_favorite_report_link`.

Modelling conventions:
* Instants (Python `datetime` values) are naturals; `datetime.min` is `0`.
  Only the order on instants is load-bearing in the source, never the calendar
  fields of a message timestamp, so the vendor ISO-timestamp parse
  (`parse_reply_date`, which falls back to `datetime.min` on failure) is
  abstracted to an `Option Instant` field on the message: `none` is a parse
  failure and maps to `datetime.min`, exactly as in the source.
* Python strings are Lean `String`s; slicing and `len` are by characters,
  matching Python code points. The `\w` character class of `re` is modelled
  over the alphanumeric/underscore range (all texts in the claims are ASCII).
* The Pulseem JSON responses consumed by the loops are modelled by `Response`
  (status, error, report list); an HTTP-level exception, which
  `get_last_sms_datetime` catches, is the extra constructor `Query.failure`.
-/

namespace HarelBot

/-- Instants: `datetime` values ordered as naturals; `datetime.min` is `0`. -/
abbrev Instant := Nat

/-- The minimum representable instant, `datetime.min`. -/
def datetimeMin : Instant := 0

/-- One incoming SMS as the loops read it: `ReplyDate` already taken through the
vendor-format parse (`none` = unparseable string), and the raw `ReplyText`. -/
structure Msg where
  replyDate : Option Instant
  replyText : String
deriving DecidableEq

/-- Source `parse_reply_date`: the parsed instant of a message, `datetime.min`
when the `ReplyDate` string does not parse. -/
def parse_reply_date (m : Msg) : Instant := m.replyDate.getD datetimeMin

/-- Python `str.lower()` (character-wise, over the range the source compares). -/
def pyLower (s : String) : String := ⟨s.data.map Char.toLower⟩

/-- Python `str.strip()`: drop whitespace from both ends. -/
def pyStrip (s : String) : String :=
  ⟨((s.data.dropWhile Char.isWhitespace).reverse.dropWhile Char.isWhitespace).reverse⟩

/-- A character of the `\w` class of `OTP_REGEX` (alphanumeric or underscore). -/
def isWordChar (c : Char) : Bool := c.isAlphanum || c == '_'

/-- Length of the leading run of decimal digits. -/
def digitRunLen : List Char → Nat
  | [] => 0
  | c :: cs => if c.isDigit then digitRunLen cs + 1 else 0

/-- Whether a `\b` word boundary holds right after a digit run, i.e. the rest
of the text starts with a non-word character or is empty. -/
def boundaryAfter : List Char → Bool
  | [] => true
  | c :: _ => !isWordChar c

/-- Scanner for `re.search(r"\b(\d{4,8})\b", text)`: at each position whose
left neighbour is a non-word character (start of text included), a maximal
digit run of length 4..8 followed by a word boundary is a match; the leftmost
match wins, exactly the backtracking behaviour of the Python pattern. -/
def otpSearchAux (prevIsWord : Bool) : List Char → Option String
  | [] => none
  | c :: cs =>
    if !prevIsWord && c.isDigit then
      let L := digitRunLen (c :: cs)
      if 4 ≤ L && L ≤ 8 && boundaryAfter ((c :: cs).drop L) then
        some (((c :: cs).take L).asString)
      else otpSearchAux (isWordChar c) cs
    else otpSearchAux (isWordChar c) cs

/-- Source `OTP_REGEX.search(text)` returning `group(1)`: the first
word-bounded standalone run of 4 to 8 decimal digits in the text. -/
def extract_otp (s : String) : Option String := otpSearchAux false s.data

/-- Substring test on character lists, modelling Python `needle in hay`. -/
def hasSubstr (needle : List Char) : List Char → Bool
  | [] => needle.isEmpty
  | c :: t => needle.isPrefixOf (c :: t) || hasSubstr needle t

/-- One Pulseem JSON response as the source reads it: `status`, an optional
`error` text, and the `IncomingSmsReports` list (`None` already coerced to the
empty list, as `data.get(...) or []` does). -/
structure Response where
  status : String
  error : Option String
  reports : List Msg
deriving DecidableEq

/-- Status check of the source: `str(data.get("status", "")).lower() != "success"`. -/
def statusNotSuccess (r : Response) : Bool := pyLower r.status != "success"

/-- The transient branch of the non-success case:
`"no data" in str(data.get("error") or "").lower()`. -/
def errorSaysNoData (r : Response) : Bool :=
  hasSubstr "no data".data (pyLower (r.error.getD "")).data

/-- Insert a message into a list sorted by strictly descending key, placing it
before the first element of smaller-or-equal key (so earlier elements win on
ties, as in a stable sort). -/
def insertDescBy (key : Msg → Instant) (m : Msg) : List Msg → List Msg
  | [] => [m]
  | x :: xs => if key x ≤ key m then m :: x :: xs else x :: insertDescBy key m xs

/-- Stable descending sort by key; extensionally the unique stable sort, hence
the function computed by `sorted(fresh, key=..., reverse=True)` in the source. -/
def sortDescBy (key : Msg → Instant) : List Msg → List Msg
  | [] => []
  | x :: xs => insertDescBy key x (sortDescBy key xs)

/-- Outcome of one iteration of the polling loop of `wait_for_otp_from_pulseem`:
a code-bearing fresh message is returned, the vendor reported a genuine error
(`raise RuntimeError`), or the loop continues with the advanced `last_seen_dt`. -/
inductive CycleResult where
  | found (code : String) (msg : Msg)
  | fatal (error : Option String)
  | cont (next : Instant)
deriving DecidableEq

/-- One iteration of the `while time.time() < deadline` loop of
`wait_for_otp_from_pulseem` (source lines 207-244), given the running
`last_seen_dt` and the Pulseem response of this poll. The source advances
`last_seen_dt` to the maximum timestamp before scanning the fresh messages,
but the advanced value is discarded when the scan returns a code, so the
advance appears here on the `cont` branch only. -/
def poll_cycle (last_seen : Instant) (r : Response) : CycleResult :=
  if statusNotSuccess r then
    if errorSaysNoData r then .cont last_seen else .fatal r.error
  else if r.reports.isEmpty then .cont last_seen
  else
    match (sortDescBy parse_reply_date
        (r.reports.filter (fun m => decide (last_seen < parse_reply_date m)))).findSome?
        (fun m => (extract_otp m.replyText).map (fun c => (c, m))) with
    | some (c, m) => .found c m
    | none => .cont (r.reports.foldl (fun acc m => max acc (parse_reply_date m)) last_seen)

/-- Overall outcome of `wait_for_otp_from_pulseem`: a `(code, message)` pair,
a `RuntimeError("Pulseem error: ...")`, or the final `TimeoutError`. -/
inductive OtpOutcome where
  | code (c : String) (m : Msg)
  | error (e : Option String)
  | timeout
deriving DecidableEq

/-- The polling loop of `wait_for_otp_from_pulseem` over the finite sequence of
responses the deadline leaves room for; the empty tail is the deadline expiring
(`raise TimeoutError`). -/
def await_code (last_seen : Instant) : List Response → OtpOutcome
  | [] => .timeout
  | r :: rs =>
    match poll_cycle last_seen r with
    | .found c m => .code c m
    | .fatal e => .error e
    | .cont next => await_code next rs

/-- Source `wait_for_otp_from_pulseem`: `last_seen_dt = after_datetime or
datetime.min` (a `datetime` is always truthy, so `some C` yields `C`), then the
polling loop. -/
def wait_for_otp_from_pulseem (after_datetime : Option Instant)
    (responses : List Response) : OtpOutcome :=
  await_code (after_datetime.getD datetimeMin) responses

/-- Result of the single Pulseem query made by `get_last_sms_datetime`:
either the request raised (caught by its `try`), or a JSON response. -/
inductive Query where
  | failure
  | response (r : Response)
deriving DecidableEq

/-- Source `get_last_sms_datetime`: `datetime.min` on exception, non-success
status or empty report list, otherwise the maximum parsed `ReplyDate`. -/
def get_last_sms_datetime : Query → Instant
  | .failure => datetimeMin
  | .response r =>
    if statusNotSuccess r then datetimeMin
    else if r.reports.isEmpty then datetimeMin
    else r.reports.foldl (fun acc m => max acc (parse_reply_date m)) datetimeMin

/-- The JSON payload built by `get_incoming_sms_report` (times kept abstract;
only their presence is modelled). -/
structure Payload where
  SearchTxt : Option String
  StartTime : Option Instant
  EndTime : Option Instant
deriving DecidableEq

/-- Payload construction of source `get_incoming_sms_report`: the free-text
filter is included only when truthy (non-empty) and is sliced to its first 31
characters (`search_txt[:31]`); the window bounds are included when present. -/
def get_incoming_sms_report_payload (search_txt : Option String)
    (start_time end_time : Option Instant) : Payload :=
  { SearchTxt :=
      match search_txt with
      | some s => if s = "" then none else some ((s.data.take 31).asString)
      | none => none
    StartTime := start_time
    EndTime := end_time }

/-- Gregorian leap-year test, as `datetime` implements it. -/
def isLeapYear (y : Nat) : Bool := (y % 4 == 0 && y % 100 != 0) || y % 400 == 0

/-- Days in a month of a given year, as `datetime` validates them. -/
def daysInMonth (y m : Nat) : Nat :=
  if m == 2 then (if isLeapYear y then 29 else 28)
  else if m == 4 || m == 6 || m == 9 || m == 11 then 30
  else 31

/-- Key encoding of a calendar date, order-isomorphic to `datetime` order on
midnight dates: `y * 10000 + m * 100 + d` (reads as yyyymmdd). -/
def dateKey (d m y : Nat) : Nat := y * 10000 + m * 100 + d

/-- Key of `datetime.min`, i.e. 01/01/0001, the initial `best_dt`. -/
def minDateKey : Nat := dateKey 1 1 1

/-- Source `_parse_il_date_ddmmyyyy` on a dd/mm/yyyy-shaped string already
split into day, month and 4-digit year: `datetime.strptime(s, "%d/%m/%Y")`
succeeds exactly on valid calendar dates with year at least 1. -/
def parse_il_date_ddmmyyyy (d m y : Nat) : Option Nat :=
  if 1 ≤ y ∧ 1 ≤ m ∧ m ≤ 12 ∧ 1 ≤ d ∧ d ≤ daysInMonth y m then
    some (dateKey d m y)
  else none

/-- Numeric value of a decimal digit character. -/
def toDigit (c : Char) : Nat := c.toNat - 48

/-- Match of `\d{2}/\d{2}/\d{4}` at the head of the text, returning the day,
month and year digits. -/
def isDate10 : List Char → Option (Nat × Nat × Nat)
  | d1 :: d2 :: s1 :: m1 :: m2 :: s2 :: y1 :: y2 :: y3 :: y4 :: _ =>
    if d1.isDigit && d2.isDigit && s1 == '/' && m1.isDigit && m2.isDigit &&
        s2 == '/' && y1.isDigit && y2.isDigit && y3.isDigit && y4.isDigit then
      some (toDigit d1 * 10 + toDigit d2, toDigit m1 * 10 + toDigit m2,
        ((toDigit y1 * 10 + toDigit y2) * 10 + toDigit y3) * 10 + toDigit y4)
    else none
  | _ => none

/-- Leftmost match of `re.search(r"(\d{2}/\d{2}/\d{4})", txt)`. -/
def findDate : List Char → Option (Nat × Nat × Nat)
  | [] => none
  | c :: cs =>
    match isDate10 (c :: cs) with
    | some r => some r
    | none => findDate cs

/-- Per-cell processing of the date-scan loop of `run_payments_assembly_flow`:
strip the cell text, search the dd/mm/yyyy pattern, parse it strictly; `none`
when the pattern is absent or the date is not a valid calendar date. -/
def cell_date (txt : String) : Option Nat :=
  match findDate (pyStrip txt).data with
  | none => none
  | some (d, m, y) => parse_il_date_ddmmyyyy d m y

/-- The running `best_dt` as a key: `datetime.min` while no cell has won. -/
def bestKey (best : Option (Nat × Nat)) : Nat := (best.map Prod.snd).getD minDateKey

/-- The date-scan loop of `run_payments_assembly_flow` (source lines 597-611):
walk the cells in DOM order carrying `(best_cell, best_dt)`, updating on a
strictly greater parsed date. -/
def select_latest_aux : List String → Nat → Option (Nat × Nat) → Option (Nat × Nat)
  | [], _, best => best
  | c :: rest, i, best =>
    match cell_date c with
    | none => select_latest_aux rest (i + 1) best
    | some dt =>
      if bestKey best < dt then select_latest_aux rest (i + 1) (some (i, dt))
      else select_latest_aux rest (i + 1) best

/-- Latest-row selection over the date cells: index and date key of the winning
cell, `none` when the loop ends with `best_cell is None` (the source then
raises `RuntimeError`). -/
def select_latest (cells : List String) : Option (Nat × Nat) :=
  select_latest_aux cells 0 none

/-- First maximal digit run of the text, as `re.search(r"\d+", s).group(0)`. -/
def firstDigitRunFrom : List Char → Option String
  | [] => none
  | c :: cs =>
    if c.isDigit then some ((c :: cs.takeWhile Char.isDigit).asString)
    else firstDigitRunFrom cs

/-- Agent-number extraction of `run_payments_assembly_flow`: strip the cell
text, take the first digit run, empty string when there is none. -/
def agent_num_of (txt : String) : String := (firstDigitRunFrom (pyStrip txt).data).getD ""

/-- Row-relative events of the tail of `run_payments_assembly_flow`, after the
filter step: abort on zero parseable dates, the in-row clicks, and the agent
validation outcome. -/
inductive PostEvent where
  | abortNoDate
  | clickNifraim (row : Nat)
  | agentMismatchAbort (txt : String)
  | agentOk
  | clickMonthOpenPopup (row : Nat)
deriving DecidableEq

/-- Event trace of the row-relative tail of `run_payments_assembly_flow`
(source lines 597-643), as a function of the date-cell texts and the selected
row's agent-cell text: select the latest row (raising when none parses), click
the "nifraim" cell of that row, validate the agent number against "165"
(mismatch raises), and only then click the month cell, which opens the paid
popup. -/
def run_payments_assembly_flow (cells : List String) (agent_text : String) :
    List PostEvent :=
  match select_latest cells with
  | none => [.abortNoDate]
  | some (i, _) =>
    if agent_num_of agent_text ≠ "165" then
      [.clickNifraim i, .agentMismatchAbort agent_text]
    else
      [.clickNifraim i, .agentOk, .clickMonthOpenPopup i]

/-- Source `find_first_locator_in_any_frame`: walk `page.frames` in order and
return the first frame holding an attached element for the selector; the
`matches` capability abstracts `loc.count() > 0` plus the attached wait. -/
def find_first_locator_in_any_frame {F R : Type} (ms : F → R → Bool)
    (frames : List F) (selector : R) : Option F :=
  frames.find? (fun fr => ms fr selector)

/-- The resolver of `click_favorite_report_link` generalized over its rule
chain (href visible, href attached, text visible, text attached, ...): try
each candidate rule in listed priority order, scanning all frames for that
rule before falling back to the next rule; first hit wins. -/
def resolve {F R : Type} (ms : F → R → Bool) (frames : List F) :
    List R → Option (F × R)
  | [] => none
  | r :: rs =>
    match find_first_locator_in_any_frame ms frames r with
    | some fr => some (fr, r)
    | none => resolve ms frames rs

/-- Modelled from the spec: the search order section 4.2 describes for
`resolve` - iterate every frame of the page, and within each frame try each
candidate rule in priority order; return the first hit under that frame-outer,
rule-inner order. Stated only for comparison with `resolve` above, which is
the order the source actually implements. -/
def resolve_frame_outer {F R : Type} (ms : F → R → Bool) (rules : List R) :
    List F → Option (F × R)
  | [] => none
  | f :: fs =>
    match rules.find? (fun r => ms f r) with
    | some r => some (f, r)
    | none => resolve_frame_outer ms rules fs

/-! ### Helper lemmas -/

theorem foldl_max_init_le (l : List Msg) :
    ∀ {a b : Instant}, a ≤ b →
      a ≤ l.foldl (fun acc m => max acc (parse_reply_date m)) b := by
  induction l with
  | nil => intro a b h; simpa using h
  | cons x xs ih =>
    intro a b h
    simp only [List.foldl_cons]
    exact ih (le_trans h (le_max_left _ _))

theorem foldl_max_mem (l : List Msg) :
    ∀ {m : Msg}, m ∈ l → ∀ {b : Instant},
      parse_reply_date m ≤ l.foldl (fun acc m => max acc (parse_reply_date m)) b := by
  induction l with
  | nil => intro m hm; cases hm
  | cons x xs ih =>
    intro m hm b
    simp only [List.foldl_cons]
    rcases List.mem_cons.mp hm with rfl | hm
    · exact foldl_max_init_le xs (le_max_right _ _)
    · exact ih hm

theorem mem_insertDescBy (key : Msg → Instant) (m : Msg) :
    ∀ (l : List Msg) (x : Msg), x ∈ insertDescBy key m l ↔ x = m ∨ x ∈ l := by
  intro l
  induction l with
  | nil => intro x; simp [insertDescBy]
  | cons y ys ih =>
    intro x
    by_cases h : key y ≤ key m
    · simp [insertDescBy, h]
    · simp only [insertDescBy, if_neg h, List.mem_cons, ih]
      tauto

theorem mem_sortDescBy (key : Msg → Instant) :
    ∀ (l : List Msg) (x : Msg), x ∈ sortDescBy key l ↔ x ∈ l := by
  intro l
  induction l with
  | nil => intro x; simp [sortDescBy]
  | cons y ys ih =>
    intro x
    simp only [sortDescBy, mem_insertDescBy, ih, List.mem_cons]

theorem pairwise_insertDescBy (key : Msg → Instant) (m : Msg) :
    ∀ (l : List Msg), l.Pairwise (fun a b => key b ≤ key a) →
      (insertDescBy key m l).Pairwise (fun a b => key b ≤ key a) := by
  intro l
  induction l with
  | nil => intro _; simp [insertDescBy]
  | cons y ys ih =>
    intro h
    rcases List.pairwise_cons.mp h with ⟨hy, hys⟩
    by_cases hk : key y ≤ key m
    · simp only [insertDescBy, if_pos hk]
      refine List.pairwise_cons.mpr ⟨?_, h⟩
      intro b hb
      rcases List.mem_cons.mp hb with rfl | hb
      · exact hk
      · exact le_trans (hy b hb) hk
    · simp only [insertDescBy, if_neg hk]
      refine List.pairwise_cons.mpr ⟨?_, ih hys⟩
      intro b hb
      rcases (mem_insertDescBy key m ys b).mp hb with rfl | hb
      · exact le_of_lt (lt_of_not_le hk)
      · exact hy b hb

theorem pairwise_sortDescBy (key : Msg → Instant) :
    ∀ (l : List Msg), (sortDescBy key l).Pairwise (fun a b => key b ≤ key a) := by
  intro l
  induction l with
  | nil => simp [sortDescBy]
  | cons y ys ih => exact pairwise_insertDescBy key y _ ih

theorem findSome?_otp_eq_some :
    ∀ (l : List Msg) (c : String) (m : Msg),
      l.findSome? (fun x => (extract_otp x.replyText).map (fun c => (c, x))) = some (c, m) →
      m ∈ l ∧ extract_otp m.replyText = some c := by
  intro l
  induction l with
  | nil => intro c m h; simp [List.findSome?] at h
  | cons x xs ih =>
    intro c m h
    rw [List.findSome?_cons] at h
    cases hx : extract_otp x.replyText with
    | some c' =>
      rw [hx] at h
      simp only [Option.map_some'] at h
      cases h
      exact ⟨List.mem_cons_self _ _, hx⟩
    | none =>
      rw [hx] at h
      simp only [Option.map_none'] at h
      rcases ih c m h with ⟨hm, he⟩
      exact ⟨List.mem_cons_of_mem _ hm, he⟩

theorem findSome?_otp_earlier :
    ∀ (l : List Msg),
      l.Pairwise (fun a b => parse_reply_date b ≤ parse_reply_date a) →
      ∀ (c : String) (m : Msg),
        l.findSome? (fun x => (extract_otp x.replyText).map (fun c => (c, x))) = some (c, m) →
        ∀ x ∈ l, parse_reply_date m < parse_reply_date x → extract_otp x.replyText = none := by
  intro l
  induction l with
  | nil => intro _ c m h; simp [List.findSome?] at h
  | cons a t ih =>
    intro hp c m h x hx hgt
    rcases List.pairwise_cons.mp hp with ⟨ha, ht⟩
    rw [List.findSome?_cons] at h
    cases hae : extract_otp a.replyText with
    | some c' =>
      rw [hae] at h
      simp only [Option.map_some'] at h
      cases h
      rcases List.mem_cons.mp hx with rfl | hx
      · exact absurd hgt (lt_irrefl _)
      · exact absurd hgt (not_lt_of_le (ha x hx))
    | none =>
      rw [hae] at h
      simp only [Option.map_none'] at h
      rcases List.mem_cons.mp hx with rfl | hx
      · exact hae
      · exact ih ht c m h x hx hgt

theorem findSome?_otp_eq_none :
    ∀ (l : List Msg), (∀ x ∈ l, extract_otp x.replyText = none) →
      l.findSome? (fun x => (extract_otp x.replyText).map (fun c => (c, x))) = none := by
  intro l
  induction l with
  | nil => intro _; simp [List.findSome?]
  | cons a t ih =>
    intro h
    rw [List.findSome?_cons, h a (List.mem_cons_self _ _)]
    exact ih (fun x hx => h x (List.mem_cons_of_mem _ hx))

/-! ### Facts about a single poll cycle -/

theorem poll_cycle_cont_le {ls : Instant} {r : Response} {next : Instant}
    (h : poll_cycle ls r = .cont next) : ls ≤ next := by
  unfold poll_cycle at h
  split at h
  · split at h
    · cases h; exact le_refl _
    · cases h
  · split at h
    · cases h; exact le_refl _
    · split at h
      · cases h
      · cases h; exact foldl_max_init_le r.reports (le_refl ls)

theorem poll_cycle_found {ls : Instant} {r : Response} {c : String} {m : Msg}
    (h : poll_cycle ls r = .found c m) :
    m ∈ r.reports ∧ ls < parse_reply_date m ∧ extract_otp m.replyText = some c := by
  unfold poll_cycle at h
  split at h
  · split at h <;> cases h
  · split at h
    · cases h
    · split at h
      · rename_i c' m' hf
        cases h
        rcases findSome?_otp_eq_some _ _ _ hf with ⟨hmem, hcode⟩
        rw [mem_sortDescBy] at hmem
        rcases List.mem_filter.mp hmem with ⟨hrep, hfreshb⟩
        exact ⟨hrep, of_decide_eq_true hfreshb, hcode⟩
      · cases h

theorem poll_cycle_found_newest {ls : Instant} {r : Response} {c : String} {m : Msg}
    (h : poll_cycle ls r = .found c m) :
    ∀ m' ∈ r.reports, ls < parse_reply_date m' →
      parse_reply_date m < parse_reply_date m' → extract_otp m'.replyText = none := by
  intro m' hm' hfresh hgt
  unfold poll_cycle at h
  split at h
  · split at h <;> cases h
  · split at h
    · cases h
    · split at h
      · rename_i c' m'' hf
        cases h
        refine findSome?_otp_earlier _ (pairwise_sortDescBy _ _) _ _ hf m' ?_ hgt
        rw [mem_sortDescBy]
        exact List.mem_filter.mpr ⟨hm', decide_eq_true hfresh⟩
      · cases h

theorem poll_cycle_cont_success {ls : Instant} {r : Response} {next : Instant}
    (h : poll_cycle ls r = .cont next) (hs : statusNotSuccess r = false) :
    next = r.reports.foldl (fun acc m => max acc (parse_reply_date m)) ls := by
  unfold poll_cycle at h
  rw [hs] at h
  simp only [Bool.false_eq_true, if_false] at h
  split at h
  · rename_i he
    cases h
    rw [List.isEmpty_iff.mp he]
    rfl
  · split at h
    · cases h
    · cases h; rfl

theorem poll_cycle_transient {ls : Instant} {r : Response}
    (h : (statusNotSuccess r = true ∧ errorSaysNoData r = true) ∨
      (statusNotSuccess r = false ∧ ∀ m ∈ r.reports, extract_otp m.replyText = none)) :
    ∃ next, poll_cycle ls r = .cont next := by
  unfold poll_cycle
  by_cases hs : statusNotSuccess r
  · rw [if_pos hs]
    rcases h with ⟨_, hn⟩ | ⟨hs', _⟩
    · rw [if_pos hn]; exact ⟨ls, rfl⟩
    · rw [hs] at hs'; cases hs'
  · rw [if_neg hs]
    have hnone : ∀ m ∈ r.reports, extract_otp m.replyText = none := by
      rcases h with ⟨hs', _⟩ | ⟨_, hnn⟩
      · exact absurd hs' hs
      · exact hnn
    by_cases he : r.reports.isEmpty
    · rw [if_pos he]; exact ⟨ls, rfl⟩
    · rw [if_neg he]
      rw [findSome?_otp_eq_none]
      · exact ⟨_, rfl⟩
      · intro x hx
        rw [mem_sortDescBy] at hx
        exact hnone x (List.mem_filter.mp hx).1

theorem await_code_code_fresh :
    ∀ (rs : List Response) (C ls : Instant) (c : String) (m : Msg), C ≤ ls →
      await_code ls rs = .code c m → C < parse_reply_date m := by
  intro rs
  induction rs with
  | nil => intro C ls c m _ h; cases h
  | cons r rest ih =>
    intro C ls c m hCls h
    unfold await_code at h
    cases hp : poll_cycle ls r with
    | found c' m' =>
      rw [hp] at h
      cases h
      exact lt_of_le_of_lt hCls (poll_cycle_found hp).2.1
    | fatal e => rw [hp] at h; cases h
    | cont next =>
      rw [hp] at h
      exact ih C next c m (le_trans hCls (poll_cycle_cont_le hp)) h

/-- Claim C1: for every checkpoint `C` and every sequence of MessageSource
responses, if `wait_for_otp_from_pulseem` called with `after_datetime = C`
returns a `(code, message)` pair, the returned message's parsed timestamp is
strictly greater than `C`; no message with timestamp at most `C` is returned. -/
theorem C1_await_code_only_fresh (C : Instant) (responses : List Response)
    (c : String) (m : Msg)
    (h : wait_for_otp_from_pulseem (some C) responses = .code c m) :
    C < parse_reply_date m := by
  unfold wait_for_otp_from_pulseem at h
  exact await_code_code_fresh responses C C c m (le_refl C) h

theorem C1_await_code_only_fresh_witness :
    (10 : Instant) < parse_reply_date ⟨some 11, "1234"⟩ :=
  C1_await_code_only_fresh 10 [⟨"success", none, [⟨some 11, "1234"⟩]⟩] "1234"
    ⟨some 11, "1234"⟩ (by decide)

/-- Claim C2: within one poll cycle, fresh messages are scanned in descending
timestamp order and the first code-bearing one is returned, so any fresh
message strictly newer than the returned one carries no code; in particular,
with the checkpoint at T0 = 10 and messages at T0 (code "1111", stale),
T0 + 5 (no digits, fresh) and T0 + 7 (code "2222", fresh), `await_code`
returns "2222". -/
theorem C2_newest_code_bearing_fresh_wins :
    (∀ (ls : Instant) (r : Response) (c : String) (m : Msg),
      poll_cycle ls r = .found c m →
        m ∈ r.reports ∧ ls < parse_reply_date m ∧ extract_otp m.replyText = some c ∧
        ∀ m' ∈ r.reports, ls < parse_reply_date m' →
          parse_reply_date m < parse_reply_date m' → extract_otp m'.replyText = none) ∧
    await_code 10 [⟨"success", none,
        [⟨some 10, "1111"⟩, ⟨some 15, "no digits here"⟩, ⟨some 17, "your code 2222"⟩]⟩] =
      .code "2222" ⟨some 17, "your code 2222"⟩ := by
  constructor
  · intro ls r c m h
    rcases poll_cycle_found h with ⟨hmem, hfresh, hcode⟩
    exact ⟨hmem, hfresh, hcode, poll_cycle_found_newest h⟩
  · decide

theorem C2_newest_code_bearing_fresh_wins_witness :
    (⟨some 17, "your code 2222"⟩ : Msg) ∈
        [(⟨some 10, "1111"⟩ : Msg), ⟨some 15, "no digits here"⟩, ⟨some 17, "your code 2222"⟩] ∧
      (10 : Instant) < parse_reply_date ⟨some 17, "your code 2222"⟩ ∧
      extract_otp "your code 2222" = some "2222" ∧
      ∀ m' ∈ [(⟨some 10, "1111"⟩ : Msg), ⟨some 15, "no digits here"⟩, ⟨some 17, "your code 2222"⟩],
        (10 : Instant) < parse_reply_date m' →
        parse_reply_date (⟨some 17, "your code 2222"⟩ : Msg) < parse_reply_date m' →
        extract_otp m'.replyText = none :=
  C2_newest_code_bearing_fresh_wins.1 10
    ⟨"success", none,
      [⟨some 10, "1111"⟩, ⟨some 15, "no digits here"⟩, ⟨some 17, "your code 2222"⟩]⟩
    "2222" ⟨some 17, "your code 2222"⟩ (by decide)

/-- Predicate for a response the loop treats as transient: either a
non-success status whose error text contains "no data", or a success status
none of whose messages carries an extractable code. -/
def transientResp (r : Response) : Prop :=
  (statusNotSuccess r = true ∧ errorSaysNoData r = true) ∨
    (statusNotSuccess r = false ∧ ∀ m ∈ r.reports, extract_otp m.replyText = none)

/-- Predicate for a genuine vendor error: non-success status whose error text
does not contain "no data"; the source raises `RuntimeError` on it. -/
def genuineError (r : Response) : Prop :=
  statusNotSuccess r = true ∧ errorSaysNoData r = false

/-- Claim C4: `await_code` fails in exactly two ways. If every response until
the deadline is transient ("no data", or no code-bearing message), the result
is the timeout condition, not a generic error; if a response reports a genuine
error, the loop raises in that very iteration, ignoring every later response
instead of waiting out the deadline. -/
theorem C4_timeout_vs_fatal :
    (∀ (ls : Instant) (rs : List Response), (∀ r ∈ rs, transientResp r) →
      await_code ls rs = .timeout) ∧
    (∀ (ls : Instant) (pre : List Response) (r : Response) (rest : List Response),
      (∀ r' ∈ pre, transientResp r') → genuineError r →
      await_code ls (pre ++ r :: rest) = .error r.error) := by
  constructor
  · intro ls rs h
    induction rs generalizing ls with
    | nil => rfl
    | cons r rest ih =>
      rcases poll_cycle_transient (h r (List.mem_cons_self _ _)) with ⟨next, hn⟩
      unfold await_code
      rw [hn]
      exact ih next (fun r' hr' => h r' (List.mem_cons_of_mem _ hr'))
  · intro ls pre r rest hpre hr
    induction pre generalizing ls with
    | nil =>
      rcases hr with ⟨hs, hn⟩
      show await_code ls (r :: rest) = .error r.error
      unfold await_code poll_cycle
      rw [hs, hn]
      rfl
    | cons p ps ih =>
      rcases poll_cycle_transient (hpre p (List.mem_cons_self _ _)) with ⟨next, hn⟩
      show await_code ls (p :: (ps ++ r :: rest)) = .error r.error
      unfold await_code
      rw [hn]
      exact ih next (fun r' hr' => hpre r' (List.mem_cons_of_mem _ hr'))

theorem C4_timeout_vs_fatal_witness :
    await_code 0 [⟨"error", some "NO DATA FOUND", []⟩, ⟨"error", some "No Data", []⟩] =
        .timeout ∧
      await_code 0 [⟨"error", some "NO DATA FOUND", []⟩, ⟨"error", some "auth failed", []⟩,
          ⟨"success", none, [⟨some 3, "1234"⟩]⟩] =
        .error (some "auth failed") :=
  ⟨C4_timeout_vs_fatal.1 0 [⟨"error", some "NO DATA FOUND", []⟩, ⟨"error", some "No Data", []⟩]
      (by intro r hr; fin_cases hr <;> exact Or.inl (by decide)),
    C4_timeout_vs_fatal.2 0 [⟨"error", some "NO DATA FOUND", []⟩] ⟨"error", some "auth failed", []⟩
      [⟨"success", none, [⟨some 3, "1234"⟩]⟩]
      (by intro r hr; fin_cases hr; exact Or.inl (by decide)) (by constructor <;> decide)⟩

/-- Claim C7: across one `await_code` call the running last-seen instant never
decreases, and on every successful poll cycle that continues it is advanced to
the maximum of the old value and all observed message timestamps - including
timestamps of fresh messages without a usable code - so every message of that
cycle is at most the new last-seen instant and cannot be fresh again in the
next cycle. -/
theorem C7_last_seen_monotonic (ls : Instant) (r : Response) (next : Instant)
    (h : poll_cycle ls r = .cont next) :
    ls ≤ next ∧
      (statusNotSuccess r = false →
        next = r.reports.foldl (fun acc m => max acc (parse_reply_date m)) ls ∧
        ∀ m ∈ r.reports, parse_reply_date m ≤ next) := by
  refine ⟨poll_cycle_cont_le h, fun hs => ?_⟩
  have hfold := poll_cycle_cont_success h hs
  exact ⟨hfold, fun m hm => hfold ▸ foldl_max_mem r.reports hm⟩

theorem C7_last_seen_monotonic_witness :
    (5 : Instant) ≤ 9 ∧
      (statusNotSuccess ⟨"success", none, [⟨some 9, "hello"⟩]⟩ = false →
        (9 : Instant) = List.foldl (fun acc m => max acc (parse_reply_date m)) 5
            [(⟨some 9, "hello"⟩ : Msg)] ∧
        ∀ m ∈ [(⟨some 9, "hello"⟩ : Msg)], parse_reply_date m ≤ 9) :=
  C7_last_seen_monotonic 5 ⟨"success", none, [⟨some 9, "hello"⟩]⟩ 9 (by decide)

/-- Claim C9: `establish_checkpoint` (`get_last_sms_datetime`) is a pure
function of the query result, hence idempotent when MessageSource returns the
same message set; its value is the maximum parsed timestamp over the returned
messages, and the minimum representable instant when the query raises, the
status is not success, or the message set is empty. -/
theorem C9_checkpoint_idempotent :
    (∀ q₁ q₂ : Query, q₁ = q₂ → get_last_sms_datetime q₁ = get_last_sms_datetime q₂) ∧
    get_last_sms_datetime .failure = datetimeMin ∧
    (∀ r : Response, statusNotSuccess r = true →
      get_last_sms_datetime (.response r) = datetimeMin) ∧
    (∀ r : Response, statusNotSuccess r = false →
      get_last_sms_datetime (.response r) =
        r.reports.foldl (fun acc m => max acc (parse_reply_date m)) datetimeMin) := by
  refine ⟨fun q₁ q₂ h => h ▸ rfl, rfl, fun r hs => ?_, fun r hs => ?_⟩
  · simp only [get_last_sms_datetime]
    rw [hs]
    rfl
  · simp only [get_last_sms_datetime]
    rw [hs]
    simp only [Bool.false_eq_true, if_false]
    by_cases he : r.reports.isEmpty
    · rw [if_pos he, List.isEmpty_iff.mp he]
      rfl
    · rw [if_neg he]

theorem C9_checkpoint_idempotent_witness :
    get_last_sms_datetime (.response ⟨"success", none, [⟨some 4, "a"⟩, ⟨some 9, "b"⟩]⟩) =
      List.foldl (fun acc m => max acc (parse_reply_date m)) datetimeMin
        [(⟨some 4, "a"⟩ : Msg), ⟨some 9, "b"⟩] :=
  C9_checkpoint_idempotent.2.2.2 ⟨"success", none, [⟨some 4, "a"⟩, ⟨some 9, "b"⟩]⟩ (by decide)

/-- Claim C10: every MessageSource query goes through
`get_incoming_sms_report`, whose payload silently truncates a supplied
non-empty free-text filter to its first 31 characters; a filter of at most 31
characters is sent unchanged. -/
theorem C10_search_filter_truncated (s : String) (st et : Option Instant)
    (h : s ≠ "") :
    (get_incoming_sms_report_payload (some s) st et).SearchTxt =
        some ((s.data.take 31).asString) ∧
      (s.length ≤ 31 →
        (get_incoming_sms_report_payload (some s) st et).SearchTxt = some s) := by
  constructor
  · simp only [get_incoming_sms_report_payload]
    rw [if_neg h]
  · intro hlen
    simp only [get_incoming_sms_report_payload]
    rw [if_neg h]
    have : s.data.take 31 = s.data := List.take_of_length_le hlen
    rw [this]
    cases s
    rfl

theorem C10_search_filter_truncated_witness :
    ((get_incoming_sms_report_payload (some "abc") none none).SearchTxt =
        some (("abc".data.take 31).asString) ∧
      ("abc".length ≤ 31 →
        (get_incoming_sms_report_payload (some "abc") none none).SearchTxt = some "abc")) ∧
    (get_incoming_sms_report_payload
        (some "abcdefghijklmnopqrstuvwxyz0123456789") none none).SearchTxt =
      some "abcdefghijklmnopqrstuvwxyz01234" :=
  ⟨C10_search_filter_truncated "abc" none none (by decide),
    (C10_search_filter_truncated "abcdefghijklmnopqrstuvwxyz0123456789" none none
      (by decide)).1.trans (by decide)⟩

theorem select_latest_aux_correct :
    ∀ (cells : List String) (i0 : Nat) (best : Option (Nat × Nat)) (i k : Nat),
      (∀ p ∈ best, p.1 < i0) →
      select_latest_aux cells i0 best = some (i, k) →
      (best = some (i, k) ∨
        ∃ j c, cells.get? j = some c ∧ i = i0 + j ∧ cell_date c = some k ∧ bestKey best < k) ∧
      (∀ j c k', cells.get? j = some c → cell_date c = some k' → k' ≤ k) ∧
      (∀ j c k', i0 + j < i → cells.get? j = some c → cell_date c = some k' → k' < k) ∧
      bestKey best ≤ k := by
  intro cells
  induction cells with
  | nil =>
    intro i0 best i k _ h
    simp only [select_latest_aux] at h
    refine ⟨Or.inl h, ?_, ?_, ?_⟩
    · intro j c k' hc; simp at hc
    · intro j c k' _ hc; simp at hc
    · rw [h]; simp [bestKey]
  | cons c rest ih =>
    intro i0 best i k hb h
    simp only [select_latest_aux] at h
    split at h
    · rename_i hcd
      have hb' : ∀ p ∈ best, p.1 < i0 + 1 :=
        fun p hp => Nat.lt_succ_of_lt (hb p hp)
      rcases ih (i0 + 1) best i k hb' h with ⟨hA, hB, hC, hD⟩
      refine ⟨?_, ?_, ?_, hD⟩
      · rcases hA with hA | ⟨j, c', hj, hi, hk, hbk⟩
        · exact Or.inl hA
        · exact Or.inr ⟨j + 1, c', by simpa using hj, by omega, hk, hbk⟩
      · intro j c' k' hj hk'
        cases j with
        | zero => simp at hj; rw [hj] at hcd; rw [hcd] at hk'; cases hk'
        | succ j' => exact hB j' c' k' (by simpa using hj) hk'
      · intro j c' k' hlt hj hk'
        cases j with
        | zero => simp at hj; rw [hj] at hcd; rw [hcd] at hk'; cases hk'
        | succ j' => exact hC j' c' k' (by omega) (by simpa using hj) hk'
    · rename_i dt hcd
      split at h
      · rename_i hlt
        have hb2 : ∀ p ∈ (some (i0, dt) : Option (Nat × Nat)), p.1 < i0 + 1 := by
          intro p hp
          cases hp
          exact Nat.lt_succ_self i0
        rcases ih (i0 + 1) (some (i0, dt)) i k hb2 h with ⟨hA, hB, hC, hD⟩
        have hdtk : dt ≤ k := by simpa [bestKey] using hD
        refine ⟨?_, ?_, ?_, le_trans (le_of_lt hlt) hdtk⟩
        · rcases hA with hA | ⟨j, c', hj, hi, hk, hbk⟩
          · refine Or.inr ⟨0, c, by simp, ?_, ?_, ?_⟩
            · cases hA; omega
            · cases hA; simpa using hcd
            · cases hA; simpa using hlt
          · refine Or.inr ⟨j + 1, c', by simpa using hj, by omega, hk, ?_⟩
            exact lt_trans hlt (by simpa [bestKey] using hbk)
        · intro j c' k' hj hk'
          cases j with
          | zero =>
            simp at hj; rw [hj] at hcd; rw [hcd] at hk'
            cases hk'
            exact hdtk
          | succ j' => exact hB j' c' k' (by simpa using hj) hk'
        · intro j c' k' hjlt hj hk'
          cases j with
          | zero =>
            simp at hj; rw [hj] at hcd; rw [hcd] at hk'
            cases hk'
            rcases hA with hA | ⟨_, _, _, _, _, hbk⟩
            · exfalso; cases hA; omega
            · simpa [bestKey] using hbk
          | succ j' => exact hC j' c' k' (by omega) (by simpa using hj) hk'
      · rename_i hlt
        have hb' : ∀ p ∈ best, p.1 < i0 + 1 :=
          fun p hp => Nat.lt_succ_of_lt (hb p hp)
        rcases ih (i0 + 1) best i k hb' h with ⟨hA, hB, hC, hD⟩
        have hdt : dt ≤ bestKey best := le_of_not_lt hlt
        refine ⟨?_, ?_, ?_, hD⟩
        · rcases hA with hA | ⟨j, c', hj, hi, hk, hbk⟩
          · exact Or.inl hA
          · exact Or.inr ⟨j + 1, c', by simpa using hj, by omega, hk, hbk⟩
        · intro j c' k' hj hk'
          cases j with
          | zero =>
            simp at hj; rw [hj] at hcd; rw [hcd] at hk'
            cases hk'
            exact le_trans hdt hD
          | succ j' => exact hB j' c' k' (by simpa using hj) hk'
        · intro j c' k' hjlt hj hk'
          cases j with
          | zero =>
            simp at hj; rw [hj] at hcd; rw [hcd] at hk'
            cases hk'
            rcases hA with hA | ⟨_, _, _, _, _, hbk⟩
            · exfalso
              have := hb _ hA
              simp at this
              omega
            · exact lt_of_le_of_lt hdt hbk
          | succ j' => exact hC j' c' k' (by omega) (by simpa using hj) hk'

/-- Claim C3 (amended): the date-scan of `run_payments_assembly_flow` selects
the cell with the strictly greatest parseable dd/mm/yyyy date, skipping cells
that do not parse as a valid calendar date, and on equal maximal dates keeps
the first-encountered (DOM order) maximum; for the cells
["01/02/2024", "15/01/2024", "32/13/2024"] the row of "01/02/2024"
(1 February 2024, date key 20240201) is selected, since under day-first
parsing it is the greatest valid date. -/
theorem C3_select_latest_greatest_date :
    (∀ (cells : List String) (i k : Nat), select_latest cells = some (i, k) →
      ∃ c, cells.get? i = some c ∧ cell_date c = some k ∧
        (∀ j c' k', cells.get? j = some c' → cell_date c' = some k' → k' ≤ k) ∧
        (∀ j c' k', j < i → cells.get? j = some c' → cell_date c' = some k' → k' < k)) ∧
    select_latest ["01/02/2024", "15/01/2024", "32/13/2024"] = some (0, 20240201) := by
  constructor
  · intro cells i k h
    rcases select_latest_aux_correct cells 0 none i k (by intro p hp; cases hp) h with
      ⟨hA, hB, hC, _⟩
    rcases hA with hA | ⟨j, c, hj, hi, hk, _⟩
    · cases hA
    · have hji : j = i := by omega
      subst hji
      exact ⟨c, hj, hk, fun j' c' k' hj' hk' => hB j' c' k' hj' hk',
        fun j' c' k' hlt hj' hk' => hC j' c' k' (by omega) hj' hk'⟩
  · decide

/-- Claim C3, as stated, is false: on the cells
["01/02/2024", "15/01/2024", "32/13/2024"] the source selects index 0
("01/02/2024"), not index 1 ("15/01/2024"), because in dd/mm/yyyy format
01/02/2024 is 1 February 2024, which is greater than 15 January 2024. -/
theorem C3_select_latest_counterexample :
    (select_latest ["01/02/2024", "15/01/2024", "32/13/2024"]).map Prod.fst = some 0 ∧
    (select_latest ["01/02/2024", "15/01/2024", "32/13/2024"]).map Prod.fst ≠ some 1 := by
  decide

theorem C3_select_latest_greatest_date_witness :
    ∃ c, ["01/02/2024", "15/01/2024", "32/13/2024"].get? 0 = some c ∧
      cell_date c = some 20240201 ∧
      (∀ j c' k', ["01/02/2024", "15/01/2024", "32/13/2024"].get? j = some c' →
        cell_date c' = some k' → k' ≤ 20240201) ∧
      (∀ j c' k', j < 0 → ["01/02/2024", "15/01/2024", "32/13/2024"].get? j = some c' →
        cell_date c' = some k' → k' < 20240201) :=
  C3_select_latest_greatest_date.1 ["01/02/2024", "15/01/2024", "32/13/2024"] 0 20240201
    (by decide)

theorem select_latest_aux_all_none :
    ∀ (cells : List String) (i0 : Nat) (best : Option (Nat × Nat)),
      (∀ c ∈ cells, cell_date c = none) →
      select_latest_aux cells i0 best = best := by
  intro cells
  induction cells with
  | nil => intro i0 best _; rfl
  | cons c rest ih =>
    intro i0 best h
    simp only [select_latest_aux]
    rw [h c (List.mem_cons_self _ _)]
    exact ih (i0 + 1) best (fun c' hc' => h c' (List.mem_cons_of_mem _ hc'))

/-- Claim C8: whenever zero candidate cells parse as a valid date - the
all-malformed cell set included - `select_latest` yields no row (the source
then raises its not-found `RuntimeError` instead of proceeding on some row). -/
theorem C8_not_found_on_zero_parse (cells : List String)
    (h : ∀ c ∈ cells, cell_date c = none) : select_latest cells = none :=
  select_latest_aux_all_none cells 0 none h

theorem C8_not_found_on_zero_parse_witness :
    select_latest ["32/13/2024", "header", ""] = none :=
  C8_not_found_on_zero_parse ["32/13/2024", "header", ""] (by decide)

/-- Numeric reading of a digit string: its decimal value, `none` when the
string is empty or holds a non-digit; used to state "numerically equals 165". -/
def decimalValue (s : String) : Option Nat :=
  if s.data ≠ [] ∧ s.data.all Char.isDigit then
    some (s.data.foldl (fun a c => a * 10 + toDigit c) 0)
  else none

/-- Claim C5: after the latest row is selected, the orchestrator checks the
row's agent-number field against the expected constant 165; when the field is
not numerically 165 the flow aborts fatally and the click into the row that
opens the detail popup never happens, and whenever that popup-opening click
does happen, the successful validation strictly precedes it in the trace. -/
theorem C5_validation_before_popup (cells : List String) (txt : String) :
    (decimalValue (agent_num_of txt) ≠ some 165 →
      ∀ i, PostEvent.clickMonthOpenPopup i ∉ run_payments_assembly_flow cells txt) ∧
    (∀ i, PostEvent.clickMonthOpenPopup i ∈ run_payments_assembly_flow cells txt →
      ∃ j k, j < k ∧
        (run_payments_assembly_flow cells txt).get? j = some PostEvent.agentOk ∧
        (run_payments_assembly_flow cells txt).get? k =
          some (PostEvent.clickMonthOpenPopup i)) := by
  cases hsel : select_latest cells with
  | none =>
    constructor
    · intro _ i hmem
      simp only [run_payments_assembly_flow, hsel] at hmem
      simp at hmem
    · intro i hmem
      simp only [run_payments_assembly_flow, hsel] at hmem
      simp at hmem
  | some p =>
    cases p with
    | mk i0 k0 =>
      by_cases hag : agent_num_of txt ≠ "165"
      · constructor
        · intro _ i hmem
          simp only [run_payments_assembly_flow, hsel, if_pos hag] at hmem
          simp at hmem
        · intro i hmem
          simp only [run_payments_assembly_flow, hsel, if_pos hag] at hmem
          simp at hmem
      · have hag' : agent_num_of txt = "165" := not_ne_iff.mp hag
        constructor
        · intro hdec
          exfalso
          rw [hag'] at hdec
          exact hdec (by decide)
        · intro i hmem
          simp only [run_payments_assembly_flow, hsel, if_neg hag] at hmem ⊢
          simp only [List.mem_cons, List.not_mem_nil, or_false] at hmem
          rcases hmem with hmem | hmem | hmem
          · cases hmem
          · cases hmem
          · cases hmem
            exact ⟨1, 2, by omega, rfl, rfl⟩

theorem C5_validation_before_popup_witness :
    (PostEvent.clickMonthOpenPopup 0 ∉
        run_payments_assembly_flow ["01/02/2024"] "agent 99") ∧
      ∃ j k, j < k ∧
        (run_payments_assembly_flow ["01/02/2024"] " 165 - foo").get? j =
          some PostEvent.agentOk ∧
        (run_payments_assembly_flow ["01/02/2024"] " 165 - foo").get? k =
          some (PostEvent.clickMonthOpenPopup 0) :=
  ⟨(C5_validation_before_popup ["01/02/2024"] "agent 99").1 (by decide) 0,
    (C5_validation_before_popup ["01/02/2024"] " 165 - foo").2 0 (by decide)⟩

/-! ### Frame search order (C6) -/

theorem find?_eq_some_split {α : Type} (p : α → Bool) :
    ∀ (l : List α) (a : α), l.find? p = some a →
      p a = true ∧ ∃ j, l.get? j = some a ∧
        ∀ j' x, j' < j → l.get? j' = some x → p x = false := by
  intro l
  induction l with
  | nil => intro a h; cases h
  | cons b t ih =>
    intro a h
    by_cases hpb : p b
    · rw [List.find?_cons_of_pos _ hpb] at h
      cases h
      exact ⟨hpb, 0, rfl, fun j' x hj' _ => absurd hj' (Nat.not_lt_zero j')⟩
    · rw [List.find?_cons_of_neg _ (by simpa using hpb)] at h
      rcases ih a h with ⟨hpa, j, hj, hearly⟩
      refine ⟨hpa, j + 1, by simpa using hj, ?_⟩
      intro j' x hj' hx
      cases j' with
      | zero =>
        simp at hx
        rw [← hx]
        exact Bool.eq_false_iff.mpr hpb
      | succ j'' => exact hearly j'' x (by omega) (by simpa using hx)

theorem find?_none_all {α : Type} (p : α → Bool) :
    ∀ (l : List α), l.find? p = none → ∀ x ∈ l, p x = false := by
  intro l
  induction l with
  | nil => intro _ x hx; cases hx
  | cons b t ih =>
    intro h x hx
    by_cases hpb : p b
    · rw [List.find?_cons_of_pos _ hpb] at h; cases h
    · rw [List.find?_cons_of_neg _ (by simpa using hpb)] at h
      rcases List.mem_cons.mp hx with rfl | hx
      · exact Bool.eq_false_iff.mpr hpb
      · exact ih h x hx

/-- Claim C6 (amended): `resolve` tries each candidate rule of the descriptor
in priority order and, for each rule, scans every frame of the page before
falling back to the next rule; the `(frame, rule)` pair returned is the first
hit under this rule-outer, frame-inner search order: all rules of strictly
higher priority match no frame at all, and no earlier frame matches the
returned rule. -/
theorem C6_resolve_rule_outer {F R : Type} (ms : F → R → Bool) (frames : List F) :
    ∀ (rules : List R) (f : F) (r : R),
      resolve ms frames rules = some (f, r) →
      ms f r = true ∧
      ∃ i j, rules.get? i = some r ∧ frames.get? j = some f ∧
        (∀ i' r', i' < i → rules.get? i' = some r' → ∀ f' ∈ frames, ms f' r' = false) ∧
        (∀ j' f', j' < j → frames.get? j' = some f' → ms f' r = false) := by
  intro rules
  induction rules with
  | nil => intro f r h; cases h
  | cons r0 rs ih =>
    intro f r h
    unfold resolve at h
    cases hf : find_first_locator_in_any_frame ms frames r0 with
    | some fr =>
      rw [hf] at h
      cases h
      unfold find_first_locator_in_any_frame at hf
      rcases find?_eq_some_split _ frames f hf with ⟨hms, j, hj, hearly⟩
      exact ⟨hms, 0, j, rfl, hj,
        fun i' r' hi' _ => absurd hi' (Nat.not_lt_zero i'),
        fun j' f' hj' hf' => hearly j' f' hj' hf'⟩
    | none =>
      rw [hf] at h
      rcases ih f r h with ⟨hms, i, j, hi, hj, hrule, hframe⟩
      refine ⟨hms, i + 1, j, by simpa using hi, hj, ?_, hframe⟩
      intro i' r' hi' hr' f' hf'
      cases i' with
      | zero =>
        simp at hr'
        unfold find_first_locator_in_any_frame at hf
        rw [← hr']
        exact find?_none_all _ frames hf f' hf'
      | succ i'' => exact hrule i'' r' (by omega) (by simpa using hr') f' hf'

/-- The cross page of the counterexample: frame 1 matches rule 0 only, frame 0
matches rule 1 only. -/
def crossMatches : Nat → Nat → Bool :=
  fun f r => (f == 1 && r == 0) || (f == 0 && r == 1)

/-- Claim C6, as stated, is false: on a page with frames [0, 1] and a
descriptor with rules [0, 1], where frame 0 matches only rule 1 and frame 1
matches only rule 0, the source's search returns (frame 1, rule 0) - it
exhausts rule 0 across all frames first - while the claimed frame-outer,
rule-inner order would return (frame 0, rule 1). -/
theorem C6_resolve_counterexample :
    resolve crossMatches [0, 1] [0, 1] = some (1, 0) ∧
    resolve_frame_outer crossMatches [0, 1] [0, 1] = some (0, 1) ∧
    ((1, 0) : Nat × Nat) ≠ ((0, 1) : Nat × Nat) := by
  refine ⟨rfl, rfl, by decide⟩

theorem C6_resolve_rule_outer_witness :
    crossMatches 1 0 = true ∧
      ∃ i j, [0, 1].get? i = some 0 ∧ [0, 1].get? j = some 1 ∧
        (∀ i' r', i' < i → [0, 1].get? i' = some r' →
          ∀ f' ∈ [0, 1], crossMatches f' r' = false) ∧
        (∀ j' f', j' < j → [0, 1].get? j' = some f' → crossMatches f' 0 = false) :=
  C6_resolve_rule_outer crossMatches [0, 1] [0, 1] 1 0 rfl

end HarelBot
